import Mathlib

/-!
Verification development for the w2g room-synchronization engine.

Server model (from `src/server/index.js`): the room registry is a JavaScript
`Map` keyed by room identifier; we embed it as an insertion-ordered
association list.  Each room's `users` `Map` is keyed by socket id with a
value determined by the key, so we embed it as its insertion-ordered list of
keys.  Each socket handler becomes a pure function returning the new
registry, the broadcasts emitted to the socket room, and (where the handler
takes a callback) the reply.

Client model (from `src/client/src/pages/RoomPage.tsx`): the reconciler's
`syncVideo` and the local device-event handlers become pure functions over a
playback-device state.
-/

namespace W2G

/-- Authoritative state of one room, as stored in the server's `rooms` map:
`{ videoUrl, currentTime, isPlaying, host, users }`. -/
structure Room where
  videoUrl : String
  currentTime : ℚ
  isPlaying : Bool
  host : String
  users : List String
deriving Repr, DecidableEq

/-- The server's `rooms` map: insertion-ordered association list from room id
to room state. -/
abbrev Rooms := List (String × Room)

/-- The keys of the registry. -/
def keys (rooms : Rooms) : List String := rooms.map Prod.fst

/-- Lookup, `rooms.get(roomId)`: the first entry with the given key. -/
def lookupRoom : Rooms → String → Option Room
  | [], _ => none
  | (k, r) :: rest, roomId => if k = roomId then some r else lookupRoom rest roomId

/-- Store, `rooms.set(roomId, r)`: replace the value at an existing key in
place, otherwise append (JavaScript `Map.set` preserves insertion order). -/
def setRoom : Rooms → String → Room → Rooms
  | [], k, r => [(k, r)]
  | (k', r') :: rest, k, r =>
      if k' = k then (k, r) :: rest else (k', r') :: setRoom rest k r

/-- Member addition, `room.users.set(socketId, ...)`, on the key list: a
`Map.set` with an existing key keeps the key's position, a new key is
appended. -/
def usersSet (users : List String) (id : String) : List String :=
  if id ∈ users then users else users ++ [id]

/-- Messages the server emits to a socket room. -/
inductive ServerMsg where
  | playEvent (currentTime : ℚ)
  | pauseEvent (currentTime : ℚ)
  | seekEvent (currentTime : ℚ)
  | fullscreenEvent (isFullscreen : Bool)
  | userCountUpdate (userCount : Nat)
  | hostChanged (newHostId : String)
deriving Repr, DecidableEq

/-- One `io.to(roomId).emit(...)` call: the targeted room and the message. -/
structure Broadcast where
  roomId : String
  msg : ServerMsg
deriving Repr, DecidableEq

/-- Reply of the `create-room` callback. -/
structure CreateReply where
  success : Bool
  roomId : String
  isHost : Bool
deriving Repr, DecidableEq

/-- The `roomState` object of a successful `join-room` reply. -/
structure RoomState where
  videoUrl : String
  currentTime : ℚ
  isPlaying : Bool
  isHost : Bool
  userCount : Nat
deriving Repr, DecidableEq

/-- Reply of the `join-room` callback. -/
inductive JoinReply where
  | ok (roomState : RoomState)
  | notFound (error : String)
deriving Repr, DecidableEq

/-- The `create-room` handler: stores a fresh room and replies
`{success: true, roomId, isHost: true}`.  The generated id (`nanoid(10)`) is
passed in as `genId`. -/
def createRoom (rooms : Rooms) (socketId videoUrl genId : String) :
    Rooms × CreateReply :=
  (setRoom rooms genId
     { videoUrl := videoUrl, currentTime := 0, isPlaying := false,
       host := socketId, users := [socketId] },
   { success := true, roomId := genId, isHost := true })

/-- The `join-room` handler: on a missing room replies
`{success: false, error: "Room not found"}` and changes nothing; otherwise
adds the socket to `room.users`, replies with the room state, and broadcasts
`user-count-update` to the room. -/
def joinRoom (rooms : Rooms) (socketId roomId : String) :
    Rooms × JoinReply × List Broadcast :=
  match lookupRoom rooms roomId with
  | none => (rooms, .notFound "Room not found", [])
  | some room =>
      let users' := usersSet room.users socketId
      (setRoom rooms roomId { room with users := users' },
       .ok { videoUrl := room.videoUrl, currentTime := room.currentTime,
             isPlaying := room.isPlaying, isHost := room.host == socketId,
             userCount := users'.length },
       [⟨roomId, .userCountUpdate users'.length⟩])

/-- The authority check shared by all four mutation handlers:
`if (!room || room.host !== socket.id) return`. -/
def authorized (room? : Option Room) (socketId : String) : Bool :=
  match room? with
  | none => false
  | some room => room.host == socketId

/-- The `play` handler (host only, no callback): sets `isPlaying := true` and
`currentTime`, broadcasts `play-event`. -/
def play (rooms : Rooms) (socketId roomId : String) (currentTime : ℚ) :
    Rooms × List Broadcast :=
  match lookupRoom rooms roomId with
  | none => (rooms, [])
  | some room =>
      if room.host = socketId then
        (setRoom rooms roomId { room with isPlaying := true, currentTime := currentTime },
         [⟨roomId, .playEvent currentTime⟩])
      else (rooms, [])

/-- The `pause` handler (host only, no callback): sets `isPlaying := false`
and `currentTime`, broadcasts `pause-event`. -/
def pause (rooms : Rooms) (socketId roomId : String) (currentTime : ℚ) :
    Rooms × List Broadcast :=
  match lookupRoom rooms roomId with
  | none => (rooms, [])
  | some room =>
      if room.host = socketId then
        (setRoom rooms roomId { room with isPlaying := false, currentTime := currentTime },
         [⟨roomId, .pauseEvent currentTime⟩])
      else (rooms, [])

/-- The `seek` handler (host only, no callback): sets `currentTime` only,
broadcasts `seek-event`. -/
def seek (rooms : Rooms) (socketId roomId : String) (currentTime : ℚ) :
    Rooms × List Broadcast :=
  match lookupRoom rooms roomId with
  | none => (rooms, [])
  | some room =>
      if room.host = socketId then
        (setRoom rooms roomId { room with currentTime := currentTime },
         [⟨roomId, .seekEvent currentTime⟩])
      else (rooms, [])

/-- The `fullscreen` handler (host only, no callback): stores nothing,
broadcasts `fullscreen-event`. -/
def fullscreen (rooms : Rooms) (socketId roomId : String) (isFullscreen : Bool) :
    Rooms × List Broadcast :=
  match lookupRoom rooms roomId with
  | none => (rooms, [])
  | some room =>
      if room.host = socketId then
        (rooms, [⟨roomId, .fullscreenEvent isFullscreen⟩])
      else (rooms, [])

/-- Effect of a disconnect on a single room (the body of the `forEach` in the
`disconnect` handler): remove the socket if present; delete the room if it
became empty; otherwise reassign the host to the first remaining user when
the host left (broadcasting `host-changed`), and broadcast
`user-count-update`. -/
def disconnectRoom (socketId roomId : String) (room : Room) :
    Option Room × List Broadcast :=
  if socketId ∈ room.users then
    match room.users.erase socketId with
    | [] => (none, [])
    | u :: us =>
        if room.host = socketId then
          (some { room with host := u, users := u :: us },
           [⟨roomId, .hostChanged u⟩, ⟨roomId, .userCountUpdate (u :: us).length⟩])
        else
          (some { room with users := u :: us },
           [⟨roomId, .userCountUpdate (u :: us).length⟩])
  else (some room, [])

/-- The `disconnect` handler: `rooms.forEach` over the registry in insertion
order, dropping rooms that `disconnectRoom` deletes. -/
def disconnect : Rooms → String → Rooms × List Broadcast
  | [], _ => ([], [])
  | (k, room) :: rest, socketId =>
      match disconnectRoom socketId k room, disconnect rest socketId with
      | (none, bs), (rest', bs') => (rest', bs ++ bs')
      | (some r, bs), (rest', bs') => ((k, r) :: rest', bs ++ bs')

/-- One inbound operation on the server, for reachability statements. -/
inductive Op where
  | createOp (socketId videoUrl genId : String)
  | joinOp (socketId roomId : String)
  | playOp (socketId roomId : String) (t : ℚ)
  | pauseOp (socketId roomId : String) (t : ℚ)
  | seekOp (socketId roomId : String) (t : ℚ)
  | fullscreenOp (socketId roomId : String) (b : Bool)
  | disconnectOp (socketId : String)
deriving Repr, DecidableEq

/-- State transition of the registry under one operation (the handlers'
effect on `rooms`, replies and broadcasts discarded). -/
def step (rooms : Rooms) : Op → Rooms
  | .createOp s v g => (createRoom rooms s v g).1
  | .joinOp s r => (joinRoom rooms s r).1
  | .playOp s r t => (play rooms s r t).1
  | .pauseOp s r t => (pause rooms s r t).1
  | .seekOp s r t => (seek rooms s r t).1
  | .fullscreenOp s r b => (fullscreen rooms s r b).1
  | .disconnectOp s => (disconnect rooms s).1

/-- Registry reached from the empty server by a sequence of operations. -/
def run (ops : List Op) : Rooms := List.foldl step [] ops

/-- Structural well-formedness of one room: non-empty membership, host is a
member, membership has no duplicate (it embeds the keys of a `Map`). -/
def RoomWF (r : Room) : Prop :=
  r.users ≠ [] ∧ r.host ∈ r.users ∧ r.users.Nodup

/-- Structural well-formedness of the registry: distinct room keys and every
room well-formed. -/
def WF (rooms : Rooms) : Prop :=
  (keys rooms).Nodup ∧ ∀ p ∈ rooms, RoomWF p.2

/-- The `host-changed` payloads targeted at one room within a broadcast
list. -/
def newHostAnnouncements (bs : List Broadcast) (roomId : String) : List String :=
  bs.filterMap fun b =>
    if b.roomId = roomId then
      match b.msg with
      | .hostChanged h => some h
      | _ => none
    else none

/-- Modelled from the spec: the `nanoid` identifier generator is an external
library, not part of this repository's source.  Per the spec it yields "a
fresh random identifier ... (minimum 10 alphanumeric characters, ≥60 bits
entropy)" that is "guaranteed not to collide with any live room".  We model
its output as any string satisfying exactly those properties relative to the
current registry. -/
def NanoidSpec (rooms : Rooms) (id : String) : Prop :=
  10 ≤ id.length ∧ id.data.all Char.isAlphanum = true ∧ lookupRoom rooms id = none

/-! ## Client reconciler (from `RoomPage.tsx`) -/

/-- The opaque playback device's observable state. -/
structure Video where
  currentTime : ℚ
  paused : Bool
deriving Repr, DecidableEq

/-- Outcome of one `syncVideo` call: the device state afterwards, the seek
applied to the device if any, and the fact that `isSyncingRef` is set for
the duration. -/
structure SyncResult where
  video : Video
  seekIssued : Option ℚ
  syncingDuring : Bool
deriving Repr, DecidableEq

/-- The client's `syncVideo(currentTime, shouldPlay?)`: seeks the device to
the remote time only when the absolute difference exceeds 0.5 seconds, then
issues the play/pause command when `shouldPlay` is present. -/
def syncVideo (v : Video) (currentTime : ℚ) (shouldPlay : Option Bool) :
    SyncResult :=
  let timeDiff := |v.currentTime - currentTime|
  let seekIssued := if timeDiff > 0.5 then some currentTime else none
  let v1 := if timeDiff > 0.5 then { v with currentTime := currentTime } else v
  let v2 :=
    match shouldPlay with
    | some true => { v1 with paused := false }
    | some false => { v1 with paused := true }
    | none => v1
  { video := v2, seekIssued := seekIssued, syncingDuring := true }

/-- Control requests the client can emit to the server. -/
inductive OutMsg where
  | playMsg (roomId : String) (currentTime : ℚ)
  | pauseMsg (roomId : String) (currentTime : ℚ)
  | seekMsg (roomId : String) (currentTime : ℚ)
deriving Repr, DecidableEq

/-- The client's `handlePlay`: device `play` events are forwarded only when
the session is host and not currently syncing. -/
def handlePlay (isHost syncing : Bool) (roomId : String) (videoTime : ℚ) :
    Option OutMsg :=
  if !isHost || syncing then none else some (.playMsg roomId videoTime)

/-- The client's `handlePause`. -/
def handlePause (isHost syncing : Bool) (roomId : String) (videoTime : ℚ) :
    Option OutMsg :=
  if !isHost || syncing then none else some (.pauseMsg roomId videoTime)

/-- The client's `handleSeeked`: forwarded as a `seek` request. -/
def handleSeeked (isHost syncing : Bool) (roomId : String) (videoTime : ℚ) :
    Option OutMsg :=
  if !isHost || syncing then none else some (.seekMsg roomId videoTime)

/-! ## Registry lemmas -/

@[simp]
theorem keys_nil : keys [] = [] := rfl

@[simp]
theorem keys_cons (k : String) (r : Room) (rest : Rooms) :
    keys ((k, r) :: rest) = k :: keys rest := rfl

theorem lookupRoom_cons_self (k : String) (r : Room) (rest : Rooms) :
    lookupRoom ((k, r) :: rest) k = some r := by
  simp [lookupRoom]

theorem lookupRoom_cons_ne {k k' : String} (r : Room) (rest : Rooms)
    (h : k ≠ k') : lookupRoom ((k, r) :: rest) k' = lookupRoom rest k' := by
  simp [lookupRoom, h]

theorem lookupRoom_eq_none {rooms : Rooms} {k : String} :
    lookupRoom rooms k = none ↔ k ∉ keys rooms := by
  induction rooms with
  | nil => simp [lookupRoom]
  | cons p rest ih =>
      obtain ⟨k', r'⟩ := p
      by_cases h : k' = k
      · subst h; simp [lookupRoom]
      · simp [lookupRoom, h, ih, Ne.symm h]

theorem lookupRoom_mem {rooms : Rooms} {k : String} {r : Room}
    (h : lookupRoom rooms k = some r) : (k, r) ∈ rooms := by
  induction rooms with
  | nil => simp [lookupRoom] at h
  | cons p rest ih =>
      obtain ⟨k', r'⟩ := p
      by_cases hk : k' = k <;> simp [lookupRoom, hk] at h
      · subst hk; subst h; exact List.mem_cons_self _ _
      · exact List.mem_cons_of_mem _ (ih h)

theorem lookup_setRoom_self (rooms : Rooms) (k : String) (r : Room) :
    lookupRoom (setRoom rooms k r) k = some r := by
  induction rooms with
  | nil => simp [setRoom, lookupRoom]
  | cons p rest ih =>
      obtain ⟨k', r'⟩ := p
      by_cases hk : k' = k <;> simp [setRoom, lookupRoom, hk, ih]

theorem lookup_setRoom_ne {k' k : String} (rooms : Rooms) (r : Room)
    (h : k' ≠ k) : lookupRoom (setRoom rooms k r) k' = lookupRoom rooms k' := by
  induction rooms with
  | nil => simp [setRoom, lookupRoom, Ne.symm h]
  | cons p rest ih =>
      obtain ⟨k0, r0⟩ := p
      by_cases hk : k0 = k <;> simp [setRoom, lookupRoom, hk, ih]
      · subst hk; simp [Ne.symm h]

theorem setRoom_of_not_mem {rooms : Rooms} {k : String} (r : Room)
    (h : k ∉ keys rooms) : setRoom rooms k r = rooms ++ [(k, r)] := by
  induction rooms with
  | nil => simp [setRoom]
  | cons p rest ih =>
      obtain ⟨k', r'⟩ := p
      simp only [keys_cons, List.mem_cons] at h
      push_neg at h
      simp [setRoom, Ne.symm h.1, ih h.2]

theorem setRoom_lookup_self {rooms : Rooms} {k : String} {r : Room}
    (h : lookupRoom rooms k = some r) : setRoom rooms k r = rooms := by
  induction rooms with
  | nil => simp [lookupRoom] at h
  | cons p rest ih =>
      obtain ⟨k', r'⟩ := p
      by_cases hk : k' = k
      · subst hk
        simp [lookupRoom] at h
        simp [setRoom, h]
      · simp [lookupRoom, hk] at h
        simp [setRoom, hk, ih h]

theorem mem_setRoom {p : String × Room} {rooms : Rooms} {k : String} {r : Room}
    (h : p ∈ setRoom rooms k r) : p = (k, r) ∨ p ∈ rooms := by
  induction rooms with
  | nil => simpa [setRoom] using h
  | cons q rest ih =>
      obtain ⟨k', r'⟩ := q
      by_cases hk : k' = k
      · simp only [setRoom, if_pos hk, List.mem_cons] at h
        rcases h with h | h
        · exact Or.inl h
        · exact Or.inr (List.mem_cons_of_mem _ h)
      · simp only [setRoom, if_neg hk, List.mem_cons] at h
        rcases h with h | h
        · exact Or.inr (by simp [h])
        · rcases ih h with h2 | h2
          · exact Or.inl h2
          · exact Or.inr (List.mem_cons_of_mem _ h2)

theorem mem_keys_setRoom {a : String} {rooms : Rooms} {k : String} {r : Room}
    (h : a ∈ keys (setRoom rooms k r)) : a = k ∨ a ∈ keys rooms := by
  induction rooms with
  | nil => simpa [setRoom] using h
  | cons q rest ih =>
      obtain ⟨k', r'⟩ := q
      by_cases hk : k' = k
      · subst hk
        simpa [setRoom] using h
      · simp only [setRoom, if_neg hk, keys_cons, List.mem_cons] at h
        rcases h with h | h
        · exact Or.inr (by simp [h])
        · rcases ih h with h2 | h2
          · exact Or.inl h2
          · exact Or.inr (by simp [h2])

theorem keys_setRoom_nodup {rooms : Rooms} {k : String} {r : Room}
    (h : (keys rooms).Nodup) : (keys (setRoom rooms k r)).Nodup := by
  induction rooms with
  | nil => simp [setRoom]
  | cons q rest ih =>
      obtain ⟨k', r'⟩ := q
      simp only [keys_cons, List.nodup_cons] at h
      by_cases hk : k' = k
      · subst hk
        simpa [setRoom] using h
      · simp only [setRoom, if_neg hk, keys_cons, List.nodup_cons]
        refine ⟨fun hmem => ?_, ih h.2⟩
        rcases mem_keys_setRoom hmem with h2 | h2
        · exact hk h2
        · exact h.1 h2

/-! ## `usersSet` lemmas -/

theorem usersSet_ne_nil (l : List String) (c : String) : usersSet l c ≠ [] := by
  unfold usersSet
  split
  · next hc => exact fun h => by simp [h] at hc
  · simp

theorem mem_usersSet_of_mem {a : String} {l : List String} (c : String)
    (h : a ∈ l) : a ∈ usersSet l c := by
  unfold usersSet
  split <;> simp [h]

theorem self_mem_usersSet (l : List String) (c : String) : c ∈ usersSet l c := by
  unfold usersSet
  split
  · next hc => exact hc
  · simp

theorem usersSet_nodup {l : List String} (c : String) (h : l.Nodup) :
    (usersSet l c).Nodup := by
  unfold usersSet
  split
  · exact h
  · next hc => simp [List.nodup_append, h, hc]

theorem usersSet_of_mem {l : List String} {c : String} (h : c ∈ l) :
    usersSet l c = l := by
  simp [usersSet, h]

/-! ## Disconnect lemmas -/

theorem disconnectRoom_wf {s k : String} {room r' : Room}
    (h : RoomWF room) (hr : (disconnectRoom s k room).1 = some r') :
    RoomWF r' := by
  obtain ⟨hne, hhost, hnd⟩ := h
  unfold disconnectRoom at hr
  by_cases hs : s ∈ room.users
  · rw [if_pos hs] at hr
    rcases heq : room.users.erase s with _ | ⟨u, us⟩ <;> rw [heq] at hr <;>
      dsimp only at hr
    · exact absurd hr (by simp)
    · by_cases hh : room.host = s
      · rw [if_pos hh] at hr
        dsimp only at hr
        rw [Option.some.injEq] at hr
        subst hr
        exact ⟨by simp, by simp, heq ▸ hnd.erase s⟩
      · rw [if_neg hh] at hr
        dsimp only at hr
        rw [Option.some.injEq] at hr
        subst hr
        exact ⟨by simp, heq ▸ (List.mem_erase_of_ne hh).mpr hhost,
          heq ▸ hnd.erase s⟩
  · rw [if_neg hs] at hr
    dsimp only at hr
    rw [Option.some.injEq] at hr
    subst hr
    exact ⟨hne, hhost, hnd⟩

theorem disconnectRoom_msgs_roomId {s k : String} {room : Room} {b : Broadcast}
    (h : b ∈ (disconnectRoom s k room).2) : b.roomId = k := by
  unfold disconnectRoom at h
  by_cases hs : s ∈ room.users
  · rw [if_pos hs] at h
    rcases heq : room.users.erase s with _ | ⟨u, us⟩ <;> rw [heq] at h <;>
      dsimp only at h
    · simp at h
    · by_cases hh : room.host = s
      · rw [if_pos hh] at h
        dsimp only at h
        rcases List.mem_cons.mp h with h | h
        · simp [h]
        · rcases List.mem_cons.mp h with h | h <;> simp_all
      · rw [if_neg hh] at h
        dsimp only at h
        rcases List.mem_cons.mp h with h | h <;> simp_all
  · rw [if_neg hs] at h
    simp at h

theorem keys_disconnect_sublist (rooms : Rooms) (s : String) :
    List.Sublist (keys (disconnect rooms s).1) (keys rooms) := by
  induction rooms with
  | nil => simp [disconnect]
  | cons p rest ih =>
      obtain ⟨k, room⟩ := p
      rcases hd : disconnectRoom s k room with ⟨r?, bs⟩
      rcases ht : disconnect rest s with ⟨rest', bs'⟩
      rw [ht] at ih
      rcases r? with _ | r
      · simp only [disconnect, hd, ht]
        exact List.Sublist.cons k ih
      · simp only [disconnect, hd, ht, keys_cons]
        exact List.Sublist.cons₂ k ih

theorem mem_disconnect {p : String × Room} {rooms : Rooms} {s : String}
    (h : p ∈ (disconnect rooms s).1) :
    ∃ room, (p.1, room) ∈ rooms ∧ (disconnectRoom s p.1 room).1 = some p.2 := by
  induction rooms with
  | nil => simp [disconnect] at h
  | cons q rest ih =>
      obtain ⟨k, room⟩ := q
      rcases hd : disconnectRoom s k room with ⟨r?, bs⟩
      rcases ht : disconnect rest s with ⟨rest', bs'⟩
      rw [ht] at ih
      rcases r? with _ | r
      · rw [disconnect, hd, ht] at h
        obtain ⟨room0, hm, he⟩ := ih h
        exact ⟨room0, List.mem_cons_of_mem _ hm, he⟩
      · rw [disconnect, hd, ht] at h
        rcases List.mem_cons.mp h with h | h
        · subst h
          exact ⟨room, List.mem_cons_self _ _, by simp [hd]⟩
        · obtain ⟨room0, hm, he⟩ := ih h
          exact ⟨room0, List.mem_cons_of_mem _ hm, he⟩

theorem disconnect_msgs_roomId {b : Broadcast} {rooms : Rooms} {s : String}
    (h : b ∈ (disconnect rooms s).2) : b.roomId ∈ keys rooms := by
  induction rooms with
  | nil => simp [disconnect] at h
  | cons q rest ih =>
      obtain ⟨k, room⟩ := q
      rcases hd : disconnectRoom s k room with ⟨r?, bs⟩
      rcases ht : disconnect rest s with ⟨rest', bs'⟩
      rw [ht] at ih
      have hcase : b ∈ bs ∨ b ∈ bs' → b.roomId ∈ keys ((k, room) :: rest) := by
        rintro (hb | hb)
        · have := @disconnectRoom_msgs_roomId s k room b (by rw [hd]; exact hb)
          simp [this]
        · simp [ih hb]
      rcases r? with _ | r
      · rw [disconnect, hd, ht] at h
        exact hcase (by simpa using List.mem_append.mp h)
      · rw [disconnect, hd, ht] at h
        exact hcase (by simpa using List.mem_append.mp h)

theorem newHostAnnouncements_append (bs bs' : List Broadcast) (roomId : String) :
    newHostAnnouncements (bs ++ bs') roomId =
      newHostAnnouncements bs roomId ++ newHostAnnouncements bs' roomId := by
  simp [newHostAnnouncements]

theorem newHostAnnouncements_eq_nil {bs : List Broadcast} {roomId : String}
    (h : ∀ b ∈ bs, b.roomId ≠ roomId) :
    newHostAnnouncements bs roomId = [] := by
  unfold newHostAnnouncements
  rw [List.filterMap_eq_nil_iff]
  intro b hb
  simp [h b hb]

/-! ## Preservation of structural well-formedness -/

theorem setRoom_WF {rooms : Rooms} {k : String} {r : Room}
    (h : WF rooms) (hr : RoomWF r) : WF (setRoom rooms k r) := by
  refine ⟨keys_setRoom_nodup h.1, fun p hp => ?_⟩
  rcases mem_setRoom hp with h2 | h2
  · rw [h2]; exact hr
  · exact h.2 p h2

theorem disconnect_WF {rooms : Rooms} {s : String} (h : WF rooms) :
    WF (disconnect rooms s).1 := by
  refine ⟨List.Nodup.sublist (keys_disconnect_sublist rooms s) h.1,
    fun p hp => ?_⟩
  obtain ⟨room, hmem, hsome⟩ := mem_disconnect hp
  exact disconnectRoom_wf (h.2 (p.1, room) hmem) hsome

theorem step_WF {rooms : Rooms} (h : WF rooms) (op : Op) :
    WF (step rooms op) := by
  cases op with
  | createOp s v g =>
      exact setRoom_WF h ⟨by simp, by simp, by simp⟩
  | joinOp s r =>
      simp only [step, joinRoom]
      rcases hl : lookupRoom rooms r with _ | room
      · exact h
      · obtain ⟨hne, hhost, hnd⟩ := h.2 (r, room) (lookupRoom_mem hl)
        exact setRoom_WF h
          ⟨usersSet_ne_nil _ _, mem_usersSet_of_mem _ hhost, usersSet_nodup _ hnd⟩
  | playOp s r t =>
      simp only [step, play]
      rcases hl : lookupRoom rooms r with _ | room
      · exact h
      · obtain ⟨hne, hhost, hnd⟩ := h.2 (r, room) (lookupRoom_mem hl)
        dsimp only
        by_cases hh : room.host = s
        · rw [if_pos hh]
          exact setRoom_WF h ⟨hne, hhost, hnd⟩
        · rw [if_neg hh]
          exact h
  | pauseOp s r t =>
      simp only [step, pause]
      rcases hl : lookupRoom rooms r with _ | room
      · exact h
      · obtain ⟨hne, hhost, hnd⟩ := h.2 (r, room) (lookupRoom_mem hl)
        dsimp only
        by_cases hh : room.host = s
        · rw [if_pos hh]
          exact setRoom_WF h ⟨hne, hhost, hnd⟩
        · rw [if_neg hh]
          exact h
  | seekOp s r t =>
      simp only [step, seek]
      rcases hl : lookupRoom rooms r with _ | room
      · exact h
      · obtain ⟨hne, hhost, hnd⟩ := h.2 (r, room) (lookupRoom_mem hl)
        dsimp only
        by_cases hh : room.host = s
        · rw [if_pos hh]
          exact setRoom_WF h ⟨hne, hhost, hnd⟩
        · rw [if_neg hh]
          exact h
  | fullscreenOp s r b =>
      simp only [step, fullscreen]
      rcases hl : lookupRoom rooms r with _ | room
      · exact h
      · dsimp only
        by_cases hh : room.host = s
        · rw [if_pos hh]
          exact h
        · rw [if_neg hh]
          exact h
  | disconnectOp s => exact disconnect_WF h

theorem foldl_WF (ops : List Op) :
    ∀ rooms : Rooms, WF rooms → WF (List.foldl step rooms ops) := by
  induction ops with
  | nil => intro rooms h; exact h
  | cons op rest ih => intro rooms h; exact ih _ (step_WF h op)

theorem run_WF (ops : List Op) : WF (run ops) :=
  foldl_WF ops [] ⟨List.nodup_nil, by simp⟩

/-- A `join-room` against a missing room: structured failure, no state
change, no broadcast. -/
theorem joinRoom_of_none {rooms : Rooms} {c roomId : String}
    (h : lookupRoom rooms roomId = none) :
    joinRoom rooms c roomId = (rooms, .notFound "Room not found", []) := by
  unfold joinRoom
  rw [h]

/-- A disconnect of the host of a room with other members: the single-room
effect is the host reassignment to the first remaining user plus the
`host-changed` and `user-count-update` broadcasts. -/
theorem disconnectRoom_host_leaves {s k u : String} {us : List String}
    {room : Room} (hmem : s ∈ room.users) (hh : room.host = s)
    (he : room.users.erase s = u :: us) :
    disconnectRoom s k room =
      (some { room with host := u, users := u :: us },
       [⟨k, .hostChanged u⟩, ⟨k, .userCountUpdate (u :: us).length⟩]) := by
  unfold disconnectRoom
  rw [if_pos hmem, he]
  dsimp only
  rw [if_pos hh]

/-- A disconnect of the only member of a room: the single-room effect is
deletion with no broadcast. -/
theorem disconnectRoom_last {s k : String} {room : Room}
    (hu : room.users = [s]) : disconnectRoom s k room = (none, []) := by
  unfold disconnectRoom
  rw [hu]
  simp

theorem newHostAnnouncements_disconnect_of_not_mem {rooms : Rooms}
    {s roomId : String} (h : roomId ∉ keys rooms) :
    newHostAnnouncements (disconnect rooms s).2 roomId = [] :=
  newHostAnnouncements_eq_nil fun _b hb heq =>
    h (heq ▸ disconnect_msgs_roomId hb)

/-- Joint induction for the host-migration claim: the announcements targeted
at the room and the room's state after the disconnect. -/
theorem disconnect_host_case {rooms : Rooms} {s roomId u : String}
    {us : List String} {room : Room}
    (hnd : (keys rooms).Nodup)
    (hl : lookupRoom rooms roomId = some room)
    (hmem : s ∈ room.users) (hh : room.host = s)
    (he : room.users.erase s = u :: us) :
    newHostAnnouncements (disconnect rooms s).2 roomId = [u] ∧
    lookupRoom (disconnect rooms s).1 roomId =
      some { room with host := u, users := u :: us } := by
  induction rooms with
  | nil => simp [lookupRoom] at hl
  | cons p rest ih =>
      obtain ⟨k, r0⟩ := p
      simp only [keys_cons, List.nodup_cons] at hnd
      by_cases hk : k = roomId
      · subst hk
        rw [lookupRoom_cons_self, Option.some.injEq] at hl
        subst hl
        rcases ht : disconnect rest s with ⟨rest', bs'⟩
        simp only [disconnect, disconnectRoom_host_leaves hmem hh he, ht]
        constructor
        · rw [newHostAnnouncements_append]
          have h2 : newHostAnnouncements bs' k = [] := by
            have h3 := @newHostAnnouncements_disconnect_of_not_mem rest s k hnd.1
            rwa [ht] at h3
          rw [h2]
          simp [newHostAnnouncements]
        · simp [lookupRoom]
      · rw [lookupRoom_cons_ne _ _ hk] at hl
        have hih := ih hnd.2 hl
        rcases hd : disconnectRoom s k r0 with ⟨r?, bs0⟩
        rcases ht : disconnect rest s with ⟨rest', bs'⟩
        rw [ht] at hih
        have hbs0 : newHostAnnouncements bs0 roomId = [] := by
          refine newHostAnnouncements_eq_nil fun b hb heq => (hk ?_).elim
          have h3 : b.roomId = k :=
            disconnectRoom_msgs_roomId (by rw [hd]; exact hb)
          rw [← h3, heq]
        rcases r? with _ | r <;> simp only [disconnect, hd, ht]
        · rw [newHostAnnouncements_append, hbs0]
          simpa using hih
        · rw [newHostAnnouncements_append, hbs0]
          simp only [lookupRoom, if_neg hk]
          simpa using hih

/-- After the last member of a room disconnects, the room id no longer
resolves. -/
theorem lookup_disconnect_last {rooms : Rooms} {s roomId : String}
    {room : Room}
    (hnd : (keys rooms).Nodup) (hl : lookupRoom rooms roomId = some room)
    (hu : room.users = [s]) :
    lookupRoom (disconnect rooms s).1 roomId = none := by
  induction rooms with
  | nil => simp [lookupRoom] at hl
  | cons p rest ih =>
      obtain ⟨k, r0⟩ := p
      simp only [keys_cons, List.nodup_cons] at hnd
      by_cases hk : k = roomId
      · subst hk
        rw [lookupRoom_cons_self, Option.some.injEq] at hl
        subst hl
        rcases ht : disconnect rest s with ⟨rest', bs'⟩
        simp only [disconnect, disconnectRoom_last hu, ht]
        rw [lookupRoom_eq_none]
        intro hmem
        have hsub := keys_disconnect_sublist rest s
        rw [ht] at hsub
        exact hnd.1 (hsub.subset hmem)
      · rw [lookupRoom_cons_ne _ _ hk] at hl
        have hih := ih hnd.2 hl
        rcases hd : disconnectRoom s k r0 with ⟨r?, bs0⟩
        rcases ht : disconnect rest s with ⟨rest', bs'⟩
        rw [ht] at hih
        rcases r? with _ | r <;> simp only [disconnect, hd, ht]
        · exact hih
        · simp only [lookupRoom, if_neg hk]
          exact hih

/-! ## Claim theorems -/

/-- Claim C1: a play, pause, seek, or fullscreen mutation request from a
connection that does not hold the room's host id (or naming a nonexistent
room) leaves the registry — in particular the room's `currentTime` and
`isPlaying` — unchanged and emits no broadcast; these handlers take no
callback, so no error reply of any kind reaches the requester. -/
theorem C1_unauthorized_mutation_silent (rooms : Rooms) (c roomId : String)
    (t : ℚ) (b : Bool)
    (h : authorized (lookupRoom rooms roomId) c = false) :
    play rooms c roomId t = (rooms, []) ∧
    pause rooms c roomId t = (rooms, []) ∧
    seek rooms c roomId t = (rooms, []) ∧
    fullscreen rooms c roomId b = (rooms, []) := by
  rcases hl : lookupRoom rooms roomId with _ | room
  · simp [play, pause, seek, fullscreen, hl]
  · rw [hl] at h
    simp only [authorized, beq_eq_false_iff_ne, ne_eq] at h
    simp [play, pause, seek, fullscreen, hl, h]

theorem C1_unauthorized_mutation_silent_witness :
    authorized (lookupRoom [("R", ⟨"v", 0, false, "A", ["A"]⟩)] "R") "B" = false ∧
    (play [("R", ⟨"v", 0, false, "A", ["A"]⟩)] "B" "R" 5 =
        ([("R", ⟨"v", 0, false, "A", ["A"]⟩)], []) ∧
      pause [("R", ⟨"v", 0, false, "A", ["A"]⟩)] "B" "R" 5 =
        ([("R", ⟨"v", 0, false, "A", ["A"]⟩)], []) ∧
      seek [("R", ⟨"v", 0, false, "A", ["A"]⟩)] "B" "R" 5 =
        ([("R", ⟨"v", 0, false, "A", ["A"]⟩)], []) ∧
      fullscreen [("R", ⟨"v", 0, false, "A", ["A"]⟩)] "B" "R" true =
        ([("R", ⟨"v", 0, false, "A", ["A"]⟩)], [])) :=
  ⟨by decide,
   C1_unauthorized_mutation_silent [("R", ⟨"v", 0, false, "A", ["A"]⟩)]
     "B" "R" 5 true (by decide)⟩

/-- Claim C5: `create-room` with a generator output satisfying the spec's
description of `nanoid` (≥10 alphanumeric characters, no collision with a
live room) always replies `{success: true, roomId, isHost: true}` — no error
outcome — and appends a brand-new room with `currentTime = 0`,
`isPlaying = false`, host and sole member the creator, leaving every
existing room in place. -/
theorem C5_create_fresh_room (rooms : Rooms) (v s gid : String)
    (h : NanoidSpec rooms gid) :
    (createRoom rooms s v gid).2 =
      { success := true, roomId := gid, isHost := true } ∧
    (createRoom rooms s v gid).1 =
      rooms ++ [(gid, { videoUrl := v, currentTime := 0, isPlaying := false,
                        host := s, users := [s] })] ∧
    lookupRoom (createRoom rooms s v gid).1 gid =
      some { videoUrl := v, currentTime := 0, isPlaying := false,
             host := s, users := [s] } ∧
    10 ≤ gid.length ∧ gid.data.all Char.isAlphanum = true ∧
    lookupRoom rooms gid = none := by
  obtain ⟨hlen, halpha, hfresh⟩ := h
  exact ⟨rfl, setRoom_of_not_mem _ (lookupRoom_eq_none.mp hfresh),
    lookup_setRoom_self .., hlen, halpha, hfresh⟩

theorem C5_create_fresh_room_witness :
    NanoidSpec [] "ABCDE12345" ∧
    ((createRoom [] "A" "v.mp4" "ABCDE12345").2 =
        { success := true, roomId := "ABCDE12345", isHost := true } ∧
      (createRoom [] "A" "v.mp4" "ABCDE12345").1 =
        [] ++ [("ABCDE12345", ⟨"v.mp4", 0, false, "A", ["A"]⟩)] ∧
      lookupRoom (createRoom [] "A" "v.mp4" "ABCDE12345").1 "ABCDE12345" =
        some ⟨"v.mp4", 0, false, "A", ["A"]⟩ ∧
      10 ≤ ("ABCDE12345" : String).length ∧
      ("ABCDE12345" : String).data.all Char.isAlphanum = true ∧
      lookupRoom [] "ABCDE12345" = none) :=
  ⟨⟨by decide, by decide, rfl⟩,
   C5_create_fresh_room [] "v.mp4" "A" "ABCDE12345" ⟨by decide, by decide, rfl⟩⟩

/-- Claim C6: joining an existing room adds the caller to the member list
and returns a success snapshot carrying the room's `videoUrl`,
`currentTime`, `isPlaying`, an `isHost` flag that is true iff the caller is
the host, and the member count after the addition (also broadcast as
`user-count-update`); joining a missing room returns the structured
`"Room not found"` failure and changes no state. -/
theorem C6_join_snapshot (rooms rs : Rooms) (c roomId : String) (room : Room)
    (hl : lookupRoom rooms roomId = some room)
    (h2 : lookupRoom rs roomId = none) :
    joinRoom rooms c roomId =
      (setRoom rooms roomId { room with users := usersSet room.users c },
       .ok { videoUrl := room.videoUrl, currentTime := room.currentTime,
             isPlaying := room.isPlaying, isHost := room.host == c,
             userCount := (usersSet room.users c).length },
       [⟨roomId, .userCountUpdate (usersSet room.users c).length⟩]) ∧
    c ∈ usersSet room.users c ∧
    ((room.host == c) = true ↔ c = room.host) ∧
    joinRoom rs c roomId = (rs, .notFound "Room not found", []) := by
  refine ⟨?_, self_mem_usersSet _ _, ?_, joinRoom_of_none h2⟩
  · unfold joinRoom
    rw [hl]
  · rw [beq_iff_eq, eq_comm]

theorem C6_join_snapshot_witness :
    lookupRoom [("R", ⟨"v.mp4", 0, false, "A", ["A"]⟩)] "R" =
      some ⟨"v.mp4", 0, false, "A", ["A"]⟩ ∧
    lookupRoom [] "R" = none ∧
    (joinRoom [("R", ⟨"v.mp4", 0, false, "A", ["A"]⟩)] "B" "R" =
      (setRoom [("R", ⟨"v.mp4", 0, false, "A", ["A"]⟩)] "R"
         { (⟨"v.mp4", 0, false, "A", ["A"]⟩ : Room) with
           users := usersSet ["A"] "B" },
       .ok { videoUrl := "v.mp4", currentTime := 0, isPlaying := false,
             isHost := ("A" : String) == "B",
             userCount := (usersSet ["A"] "B").length },
       [⟨"R", .userCountUpdate (usersSet ["A"] "B").length⟩]) ∧
     "B" ∈ usersSet ["A"] "B" ∧
     ((("A" : String) == "B") = true ↔ "B" = "A") ∧
     joinRoom [] "B" "R" = ([], .notFound "Room not found", [])) :=
  ⟨by decide, rfl,
   C6_join_snapshot [("R", ⟨"v.mp4", 0, false, "A", ["A"]⟩)] [] "B" "R"
     ⟨"v.mp4", 0, false, "A", ["A"]⟩ (by decide) rfl⟩

/-- Claim C7: an accepted (host-issued) mutation on an existing room has
exactly the stated frame: `play` sets `isPlaying := true` and `currentTime`
to the carried timestamp, `pause` sets `isPlaying := false` and
`currentTime`, `seek` sets `currentTime` and leaves `isPlaying` as it was,
`fullscreen` leaves the registry untouched; none of them changes the room's
`videoUrl`, host, or member list. -/
theorem C7_host_mutation_frame (rooms : Rooms) (s roomId : String) (t : ℚ)
    (b : Bool) (room : Room)
    (hl : lookupRoom rooms roomId = some room)
    (hh : room.host = s) :
    lookupRoom (play rooms s roomId t).1 roomId =
      some { videoUrl := room.videoUrl, currentTime := t, isPlaying := true,
             host := room.host, users := room.users } ∧
    (play rooms s roomId t).2 = [⟨roomId, .playEvent t⟩] ∧
    lookupRoom (pause rooms s roomId t).1 roomId =
      some { videoUrl := room.videoUrl, currentTime := t, isPlaying := false,
             host := room.host, users := room.users } ∧
    (pause rooms s roomId t).2 = [⟨roomId, .pauseEvent t⟩] ∧
    lookupRoom (seek rooms s roomId t).1 roomId =
      some { videoUrl := room.videoUrl, currentTime := t,
             isPlaying := room.isPlaying, host := room.host,
             users := room.users } ∧
    (seek rooms s roomId t).2 = [⟨roomId, .seekEvent t⟩] ∧
    (fullscreen rooms s roomId b).1 = rooms ∧
    (fullscreen rooms s roomId b).2 = [⟨roomId, .fullscreenEvent b⟩] := by
  unfold play pause seek fullscreen
  rw [hl]
  dsimp only
  simp only [if_pos hh]
  simp [lookup_setRoom_self]

theorem C7_host_mutation_frame_witness :
    lookupRoom [("R", ⟨"v", 0, false, "A", ["A", "B"]⟩)] "R" =
      some ⟨"v", 0, false, "A", ["A", "B"]⟩ ∧
    (⟨"v", 0, false, "A", ["A", "B"]⟩ : Room).host = "A" ∧
    (lookupRoom (play [("R", ⟨"v", 0, false, "A", ["A", "B"]⟩)] "A" "R" 5).1 "R" =
        some ⟨"v", 5, true, "A", ["A", "B"]⟩ ∧
      (play [("R", ⟨"v", 0, false, "A", ["A", "B"]⟩)] "A" "R" 5).2 =
        [⟨"R", .playEvent 5⟩] ∧
      lookupRoom (pause [("R", ⟨"v", 0, false, "A", ["A", "B"]⟩)] "A" "R" 5).1 "R" =
        some ⟨"v", 5, false, "A", ["A", "B"]⟩ ∧
      (pause [("R", ⟨"v", 0, false, "A", ["A", "B"]⟩)] "A" "R" 5).2 =
        [⟨"R", .pauseEvent 5⟩] ∧
      lookupRoom (seek [("R", ⟨"v", 0, false, "A", ["A", "B"]⟩)] "A" "R" 5).1 "R" =
        some ⟨"v", 5, false, "A", ["A", "B"]⟩ ∧
      (seek [("R", ⟨"v", 0, false, "A", ["A", "B"]⟩)] "A" "R" 5).2 =
        [⟨"R", .seekEvent 5⟩] ∧
      (fullscreen [("R", ⟨"v", 0, false, "A", ["A", "B"]⟩)] "A" "R" true).1 =
        [("R", ⟨"v", 0, false, "A", ["A", "B"]⟩)] ∧
      (fullscreen [("R", ⟨"v", 0, false, "A", ["A", "B"]⟩)] "A" "R" true).2 =
        [⟨"R", .fullscreenEvent true⟩]) :=
  ⟨by decide, rfl,
   C7_host_mutation_frame [("R", ⟨"v", 0, false, "A", ["A", "B"]⟩)]
     "A" "R" 5 true ⟨"v", 0, false, "A", ["A", "B"]⟩ (by decide) rfl⟩

/-- Claim C10: a `join-room` from a connection that is already a member
leaves the registry — member list, its length and order, and the host —
exactly unchanged and still returns the success snapshot with the same
member count; consequently a second join from the same connection returns
the identical result as the first. -/
theorem C10_join_idempotent (rooms : Rooms) (c roomId : String) (room : Room)
    (hl : lookupRoom rooms roomId = some room)
    (hc : c ∈ room.users) :
    joinRoom rooms c roomId =
      (rooms,
       .ok { videoUrl := room.videoUrl, currentTime := room.currentTime,
             isPlaying := room.isPlaying, isHost := room.host == c,
             userCount := room.users.length },
       [⟨roomId, .userCountUpdate room.users.length⟩]) ∧
    joinRoom (joinRoom rooms c roomId).1 c roomId = joinRoom rooms c roomId := by
  have h1 : joinRoom rooms c roomId =
      (rooms,
       .ok { videoUrl := room.videoUrl, currentTime := room.currentTime,
             isPlaying := room.isPlaying, isHost := room.host == c,
             userCount := room.users.length },
       [⟨roomId, .userCountUpdate room.users.length⟩]) := by
    unfold joinRoom
    rw [hl]
    dsimp only
    rw [usersSet_of_mem hc, setRoom_lookup_self hl]
  exact ⟨h1, by rw [h1]; exact h1⟩

/-- Claim C2: in every registry state reachable from the empty server by any
sequence of create-room, join-room, play, pause, seek, fullscreen, and
disconnect operations, every stored room has a non-empty member list and its
host id is one of its members. -/
theorem C2_registry_invariant (ops : List Op) :
    ∀ p ∈ run ops, p.2.users ≠ [] ∧ p.2.host ∈ p.2.users := by
  intro p hp
  obtain ⟨hne, hhost, _⟩ := (run_WF ops).2 p hp
  exact ⟨hne, hhost⟩

theorem C2_registry_invariant_witness :
    ("RRRRRRRRRR", (⟨"v", 0, false, "A", ["A"]⟩ : Room)) ∈
      run [Op.createOp "A" "v" "RRRRRRRRRR"] ∧
    (("RRRRRRRRRR", (⟨"v", 0, false, "A", ["A"]⟩ : Room)).2.users ≠ [] ∧
      ("RRRRRRRRRR", (⟨"v", 0, false, "A", ["A"]⟩ : Room)).2.host ∈
        ("RRRRRRRRRR", (⟨"v", 0, false, "A", ["A"]⟩ : Room)).2.users) :=
  ⟨by decide,
   C2_registry_invariant [Op.createOp "A" "v" "RRRRRRRRRR"]
     ("RRRRRRRRRR", ⟨"v", 0, false, "A", ["A"]⟩) (by decide)⟩

/-- Claim C3: when the host of a room disconnects while other members
remain, the disconnect produces exactly one `host-changed` broadcast
targeted at that room, carrying the new host's id; the new host is the
earliest-joined remaining member (the head of the membership list once the
host is removed) — in particular a member present before the disconnect —
and the room's state afterwards records that member as host. -/
theorem C3_host_migration (rooms : Rooms) (s roomId u : String)
    (us : List String) (room : Room)
    (hnd : (keys rooms).Nodup)
    (hl : lookupRoom rooms roomId = some room)
    (hmem : s ∈ room.users)
    (hh : room.host = s)
    (he : room.users.erase s = u :: us) :
    newHostAnnouncements (disconnect rooms s).2 roomId = [u] ∧
    u ∈ room.users ∧
    lookupRoom (disconnect rooms s).1 roomId =
      some { room with host := u, users := u :: us } := by
  obtain ⟨h1, h2⟩ := disconnect_host_case hnd hl hmem hh he
  exact ⟨h1, List.mem_of_mem_erase (he ▸ List.mem_cons_self u us), h2⟩

theorem C3_host_migration_witness :
    (keys [("R", ⟨"v", 0, false, "A", ["A", "B", "C"]⟩)]).Nodup ∧
    lookupRoom [("R", ⟨"v", 0, false, "A", ["A", "B", "C"]⟩)] "R" =
      some ⟨"v", 0, false, "A", ["A", "B", "C"]⟩ ∧
    "A" ∈ (⟨"v", 0, false, "A", ["A", "B", "C"]⟩ : Room).users ∧
    (⟨"v", 0, false, "A", ["A", "B", "C"]⟩ : Room).host = "A" ∧
    (⟨"v", 0, false, "A", ["A", "B", "C"]⟩ : Room).users.erase "A" = ["B", "C"] ∧
    (newHostAnnouncements
        (disconnect [("R", ⟨"v", 0, false, "A", ["A", "B", "C"]⟩)] "A").2 "R" =
        ["B"] ∧
      "B" ∈ (⟨"v", 0, false, "A", ["A", "B", "C"]⟩ : Room).users ∧
      lookupRoom
          (disconnect [("R", ⟨"v", 0, false, "A", ["A", "B", "C"]⟩)] "A").1 "R" =
        some ⟨"v", 0, false, "B", ["B", "C"]⟩) :=
  ⟨by decide, by decide, by decide, rfl, by decide,
   C3_host_migration [("R", ⟨"v", 0, false, "A", ["A", "B", "C"]⟩)]
     "A" "R" "B" ["C"] ⟨"v", 0, false, "A", ["A", "B", "C"]⟩
     (by decide) (by decide) (by decide) rfl (by decide)⟩

/-- Claim C4: when the last remaining member of a room disconnects, the room
is removed at once: its id no longer resolves, and a subsequent `join-room`
with that id yields exactly the same structured `"Room not found"` failure,
with unchanged state and no broadcast, as a `join-room` against a registry
in which that id never resolved. -/
theorem C4_last_disconnect_destroys (rooms rs : Rooms) (roomId c s : String)
    (room : Room)
    (hnd : (keys rooms).Nodup)
    (hl : lookupRoom rooms roomId = some room)
    (hu : room.users = [s])
    (h2 : lookupRoom rs roomId = none) :
    lookupRoom (disconnect rooms s).1 roomId = none ∧
    joinRoom (disconnect rooms s).1 c roomId =
      ((disconnect rooms s).1, .notFound "Room not found", []) ∧
    joinRoom rs c roomId = (rs, .notFound "Room not found", []) := by
  have hgone := lookup_disconnect_last hnd hl hu
  exact ⟨hgone, joinRoom_of_none hgone, joinRoom_of_none h2⟩

theorem C4_last_disconnect_destroys_witness :
    (keys [("R", ⟨"v", 0, false, "A", ["A"]⟩)]).Nodup ∧
    lookupRoom [("R", ⟨"v", 0, false, "A", ["A"]⟩)] "R" =
      some ⟨"v", 0, false, "A", ["A"]⟩ ∧
    (⟨"v", 0, false, "A", ["A"]⟩ : Room).users = ["A"] ∧
    lookupRoom [] "R" = none ∧
    (lookupRoom (disconnect [("R", ⟨"v", 0, false, "A", ["A"]⟩)] "A").1 "R" =
        none ∧
      joinRoom (disconnect [("R", ⟨"v", 0, false, "A", ["A"]⟩)] "A").1 "B" "R" =
        ((disconnect [("R", ⟨"v", 0, false, "A", ["A"]⟩)] "A").1,
         .notFound "Room not found", []) ∧
      joinRoom [] "B" "R" = ([], .notFound "Room not found", [])) :=
  ⟨by decide, by decide, rfl, rfl,
   C4_last_disconnect_destroys [("R", ⟨"v", 0, false, "A", ["A"]⟩)] []
     "R" "B" "A" ⟨"v", 0, false, "A", ["A"]⟩
     (by decide) (by decide) rfl rfl⟩

/-- Claim C8: the client reconciler, on a remote play/pause/seek event
carrying `remoteTime`, seeks the playback device to `remoteTime` exactly
when `|localTime - remoteTime|` exceeds 0.5 seconds, leaving the device's
position untouched otherwise; concretely, at local time 10.0s a remote time
of 10.3s issues no seek and a remote time of 10.6s issues a seek to
10.6s. -/
theorem C8_drift_threshold (v : Video) (rt : ℚ) (sp : Option Bool) :
    ((syncVideo v rt sp).seekIssued = some rt ↔ |v.currentTime - rt| > 0.5) ∧
    ((syncVideo v rt sp).seekIssued = none ↔ ¬|v.currentTime - rt| > 0.5) ∧
    (syncVideo v rt sp).video.currentTime =
      (if |v.currentTime - rt| > 0.5 then rt else v.currentTime) ∧
    (syncVideo ⟨10, false⟩ 10.3 none).seekIssued = none ∧
    (syncVideo ⟨10, false⟩ 10.6 none).seekIssued = some 10.6 := by
  refine ⟨?_, ?_, ?_, ?_, ?_⟩
  · unfold syncVideo
    dsimp only
    split <;> simp_all
  · unfold syncVideo
    dsimp only
    split <;> simp_all
  · rcases sp with _ | b
    · unfold syncVideo
      dsimp only
      split <;> rfl
    · rcases b <;> unfold syncVideo <;> dsimp only <;> split <;> rfl
  · simp only [syncVideo]
    norm_num [abs_le]
  · simp only [syncVideo]
    norm_num [lt_abs]

/-- Claim C9: a local device play/pause/seeked event is forwarded to the
server iff the session is host and the `syncing` flag is clear; in that case
the forwarded control request carries the device's current time, and in
every other case nothing is emitted. -/
theorem C9_local_event_forwarding (hostFlag syncing : Bool) (r : String)
    (t : ℚ) :
    (handlePlay hostFlag syncing r t = none ↔
      (syncing = true ∨ hostFlag = false)) ∧
    (handlePlay hostFlag syncing r t = some (.playMsg r t) ↔
      (hostFlag = true ∧ syncing = false)) ∧
    (handlePause hostFlag syncing r t = none ↔
      (syncing = true ∨ hostFlag = false)) ∧
    (handlePause hostFlag syncing r t = some (.pauseMsg r t) ↔
      (hostFlag = true ∧ syncing = false)) ∧
    (handleSeeked hostFlag syncing r t = none ↔
      (syncing = true ∨ hostFlag = false)) ∧
    (handleSeeked hostFlag syncing r t = some (.seekMsg r t) ↔
      (hostFlag = true ∧ syncing = false)) := by
  cases hostFlag <;> cases syncing <;>
    simp [handlePlay, handlePause, handleSeeked]

theorem C10_join_idempotent_witness :
    lookupRoom [("R", ⟨"v", 0, false, "A", ["A", "B"]⟩)] "R" =
      some ⟨"v", 0, false, "A", ["A", "B"]⟩ ∧
    "B" ∈ (⟨"v", 0, false, "A", ["A", "B"]⟩ : Room).users ∧
    (joinRoom [("R", ⟨"v", 0, false, "A", ["A", "B"]⟩)] "B" "R" =
      ([("R", ⟨"v", 0, false, "A", ["A", "B"]⟩)],
       .ok { videoUrl := "v", currentTime := 0, isPlaying := false,
             isHost := ("A" : String) == "B", userCount := 2 },
       [⟨"R", .userCountUpdate 2⟩]) ∧
     joinRoom (joinRoom [("R", ⟨"v", 0, false, "A", ["A", "B"]⟩)] "B" "R").1
         "B" "R" =
       joinRoom [("R", ⟨"v", 0, false, "A", ["A", "B"]⟩)] "B" "R") :=
  ⟨by decide, by decide,
   C10_join_idempotent [("R", ⟨"v", 0, false, "A", ["A", "B"]⟩)] "B" "R"
     ⟨"v", 0, false, "A", ["A", "B"]⟩ (by decide) (by decide)⟩

end W2G
